import Mathlib

/-!
# Verification of the pyciclib compound-interest engines

Shallow embedding of the two `CompoundInterest` engines of the repository:

* the period-index engine of `src/pycic/calculator.py` (`future_value`,
  `breakdown`, `total_contributions`, constructor validation), and
* the calendar-date engine of `src/pycic/core.py` (`timeline`, constructor
  validation).

Real numbers are modelled by `ℚ`.  The single quantity the Python code
computes with a fractional exponent, the per-period rate
`period_rate = (1 + annual_rate) ** (1 / compound_periods) - 1` (and the
analogous `daily_rate` of the calendar engine), is irrational in general, so
the engine functions take it as an explicit parameter `pr` (resp. `dr`);
for annual compounding `(1 + r) ** (1/1) - 1 = r`, so the literal scenarios
of the test-suite are exact rational computations.  Python's `round(x, 2)`
(round half to even on the exact value) is modelled by `round2`.
-/

namespace Pycic

/-- Round half to even (banker's rounding) to the nearest integer, as
Python's builtin `round` does on the exact value. -/
def roundHalfEven (x : ℚ) : ℤ :=
  if x - ⌊x⌋ < 1/2 then ⌊x⌋
  else if 1/2 < x - ⌊x⌋ then ⌊x⌋ + 1
  else if Even ⌊x⌋ then ⌊x⌋ else ⌊x⌋ + 1

/-- `round(x, 2)` of Python: round to 2 decimal places, ties to even, on
the exact rational value. -/
def round2 (q : ℚ) : ℚ := (roundHalfEven (q * 100) : ℚ) / 100

/-- The seven frequency tags of `FREQ_MAP` in `src/pycic/utils.py`. -/
inductive Freq
  | annually | semiannually | quarterly | monthly | biweekly | weekly | daily
  deriving DecidableEq, Repr

/-- `FREQ_MAP` of `src/pycic/utils.py`: occurrences per year. -/
def FREQ_MAP : Freq → ℕ
  | .annually => 1
  | .semiannually => 2
  | .quarterly => 4
  | .monthly => 12
  | .biweekly => 26
  | .weekly => 52
  | .daily => 365

/-- Contribution timing: `"start"` or `"end"`. -/
inductive Timing
  | atStart | atEnd
  deriving DecidableEq, Repr

/-- The state stored by `CompoundInterest.__init__` of
`src/pycic/calculator.py` after validation (period-index engine). -/
structure Config where
  init_value : ℚ
  interest_rate : ℚ
  years : ℚ
  comp_freq : Freq
  contribution : ℚ
  contribution_freq : Freq
  contribution_timing : Timing
  tax_rate : ℚ
  deriving DecidableEq, Repr

namespace Config

/-- `self.compound_periods = FREQ_MAP[comp_freq]`. -/
def compound_periods (c : Config) : ℕ := FREQ_MAP c.comp_freq

/-- `self.contrib_periods = FREQ_MAP[contribution_freq]`. -/
def contrib_periods (c : Config) : ℕ := FREQ_MAP c.contribution_freq

/-- `freq = max(compound_periods, contrib_periods)`. -/
def freq (c : Config) : ℕ := max c.compound_periods c.contrib_periods

/-- `total_periods = int(self.years * freq)`.  For the values reaching this
point `years > 0`, so Python's truncation toward zero is the floor; `Int.toNat`
maps the (nonnegative) result into `ℕ`. -/
def total_periods (c : Config) : ℕ := (⌊c.years * (c.freq : ℚ)⌋).toNat

/-- `compound_interval = freq // compound_periods`. -/
def compound_interval (c : Config) : ℕ := c.freq / c.compound_periods

/-- `n_contrib = int(self.years * contrib_periods)`. -/
def n_contrib (c : Config) : ℕ := (⌊c.years * (c.contrib_periods : ℚ)⌋).toNat

end Config

/-- The `deposit_days` set comprehension of `future_value` / `breakdown`:
`{floor(i * total_periods / n_contrib) + 1 for i in range(n_contrib)}` for
Start timing, `{floor((i+1) * total_periods / n_contrib) for i in range(n_contrib)}`
for End timing (`ℕ`-division is the floored quotient). -/
def deposit_days (t : Timing) (T n : ℕ) : Finset ℕ :=
  match t with
  | .atStart => ((List.range n).map (fun i => i * T / n + 1)).toFinset
  | .atEnd => ((List.range n).map (fun i => (i + 1) * T / n)).toFinset

/-- The numeric-value checks of `CompoundInterest.__init__` in
`src/pycic/calculator.py` (lines 57-83); a configuration object exists only
when all of them pass. -/
def Valid (c : Config) : Prop :=
  0 ≤ c.init_value ∧
  0 ≤ c.interest_rate ∧ c.interest_rate ≤ 1 ∧
  0 < c.years ∧ c.years ≤ 200 ∧
  0 ≤ c.contribution ∧
  0 ≤ c.tax_rate ∧ c.tax_rate ≤ 1

instance (c : Config) : Decidable (Valid c) :=
  inferInstanceAs (Decidable (_ ∧ _ ∧ _ ∧ _ ∧ _ ∧ _ ∧ _ ∧ _))

/-- Mutable loop state of both period-index passes: `balance` and
`contrib_count`. -/
structure St where
  balance : ℚ
  contrib_count : ℕ
  deriving DecidableEq, Repr

/-- One per-period record of `breakdown` (`src/pycic/calculator.py`,
lines 296-309), before the `round(…, 2)` applied to each numeric field. -/
structure Rec where
  period : ℕ
  starting_balance : ℚ
  contribution_val : ℚ
  gross_interest : ℚ
  net_interest : ℚ
  tax_paid : ℚ
  ending_balance : ℚ
  deriving DecidableEq, Repr

/-- `round(…, 2)` applied to every numeric field of a record, as `breakdown`
does when appending the row. -/
def roundRec (r : Rec) : Rec :=
  ⟨r.period, round2 r.starting_balance, round2 r.contribution_val,
   round2 r.gross_interest, round2 r.net_interest, round2 r.tax_paid,
   round2 r.ending_balance⟩

/-- The body of the `for period in …` loop of `breakdown`
(`src/pycic/calculator.py`, lines 267-309), producing the next state and the
(unrounded) row.  `pr` is `period_rate`, `dd` the `deposit_days` set, `n`
`n_contrib`, `ci` `compound_interval`. -/
def breakdownStep (c : Config) (pr : ℚ) (dd : Finset ℕ) (n ci : ℕ)
    (p : ℕ) (s : St) : St × Rec :=
  let hitStart := c.contribution_timing = Timing.atStart ∧ p ∈ dd ∧
    s.contrib_count < n
  let b1 := if hitStart then s.balance + c.contribution else s.balance
  let cnt1 := if hitStart then s.contrib_count + 1 else s.contrib_count
  -- `starting_balance = balance` is re-assigned after a Start contribution
  let sb := if hitStart then b1 else s.balance
  let cv1 : ℚ := if hitStart then c.contribution else 0
  let isComp := p % ci = 0
  let gross : ℚ := if isComp then b1 * pr else 0
  let tax : ℚ := if isComp ∧ 0 < c.tax_rate then gross * c.tax_rate else 0
  let net : ℚ := gross - tax
  let b2 := b1 + net
  let hitEnd := c.contribution_timing = Timing.atEnd ∧ p ∈ dd ∧ cnt1 < n
  let b3 := if hitEnd then b2 + c.contribution else b2
  let cnt2 := if hitEnd then cnt1 + 1 else cnt1
  let cv := if hitEnd then c.contribution else cv1
  (⟨b3, cnt2⟩, ⟨p, sb, cv, gross, net, tax, b3⟩)

/-- The period list `range(1, total_periods + 1)`. -/
def Config.periods (c : Config) : List ℕ :=
  (List.range c.total_periods).map (· + 1)

/-- The `breakdown` loop on an explicit period list, recording unrounded
rows. -/
def breakdownRawAux (c : Config) (pr : ℚ) (dd : Finset ℕ) (n ci : ℕ) :
    List ℕ → St → List Rec
  | [], _ => []
  | p :: ps, s =>
    let sr := breakdownStep c pr dd n ci p s
    sr.2 :: breakdownRawAux c pr dd n ci ps sr.1

/-- The `breakdown` loop on an explicit period list, rounding each row to two
decimals as it is appended, exactly as the source does. -/
def breakdownAux (c : Config) (pr : ℚ) (dd : Finset ℕ) (n ci : ℕ) :
    List ℕ → St → List Rec
  | [], _ => []
  | p :: ps, s =>
    let sr := breakdownStep c pr dd n ci p s
    roundRec sr.2 :: breakdownAux c pr dd n ci ps sr.1

/-- `CompoundInterest.breakdown` of `src/pycic/calculator.py` with the
per-period rate `pr` supplied (see the module comment): the produced rows,
each numeric field rounded to two decimals. -/
def breakdown (c : Config) (pr : ℚ) : List Rec :=
  breakdownAux c pr (deposit_days c.contribution_timing c.total_periods
    c.n_contrib) c.n_contrib c.compound_interval c.periods ⟨c.init_value, 0⟩

/-- Same run without the per-row rounding (the engine's internal values). -/
def breakdownRaw (c : Config) (pr : ℚ) : List Rec :=
  breakdownRawAux c pr (deposit_days c.contribution_timing c.total_periods
    c.n_contrib) c.n_contrib c.compound_interval c.periods ⟨c.init_value, 0⟩

/-- The body of the `for period in …` loop of `future_value`
(`src/pycic/calculator.py`, lines 208-223): same state update, no row. -/
def fvStep (c : Config) (pr : ℚ) (dd : Finset ℕ) (n ci : ℕ)
    (s : St) (p : ℕ) : St :=
  let hitStart := c.contribution_timing = Timing.atStart ∧ p ∈ dd ∧
    s.contrib_count < n
  let b1 := if hitStart then s.balance + c.contribution else s.balance
  let cnt1 := if hitStart then s.contrib_count + 1 else s.contrib_count
  let interest : ℚ :=
    if 0 < c.tax_rate then b1 * pr * (1 - c.tax_rate) else b1 * pr
  let b2 := if p % ci = 0 then b1 + interest else b1
  let hitEnd := c.contribution_timing = Timing.atEnd ∧ p ∈ dd ∧ cnt1 < n
  let b3 := if hitEnd then b2 + c.contribution else b2
  let cnt2 := if hitEnd then cnt1 + 1 else cnt1
  ⟨b3, cnt2⟩

/-- `CompoundInterest.future_value` of `src/pycic/calculator.py` with the
per-period rate `pr` supplied and the default `inflation = 0.0` (the
`inflation > 0` branch is skipped). -/
def future_value (c : Config) (pr : ℚ) : ℚ :=
  round2 ((c.periods.foldl
    (fvStep c pr (deposit_days c.contribution_timing c.total_periods
      c.n_contrib) c.n_contrib c.compound_interval) ⟨c.init_value, 0⟩).balance)

/-- `CompoundInterest.total_contributions` of `src/pycic/calculator.py`
(lines 313-318): `round(contribution * years * contrib_periods, 2)`. -/
def total_contributions (c : Config) : ℚ :=
  round2 (c.contribution * c.years * (c.contrib_periods : ℚ))

/-! ## The calendar-date engine of `src/pycic/core.py`

The `timeline` loop walks a sorted union of event dates.  Dates are modelled
as day numbers (`ℕ`); the sets of compounding and contribution dates, which
the source obtains from pandas `date_range` calls (external calendar logic),
are abstract `Finset ℕ` parameters, and the equivalent daily rate
`daily_rate = (1 + nominal_rate) ** (n / 365) - 1` is an abstract `ℚ`
parameter `dr` (the elapsed-day exponent `(1 + daily_rate) ** elapsed_days`
is a `ℕ` power, hence exact). -/

/-- The scalar inputs the `timeline` loop of `src/pycic/core.py` reads from
`self`: `init_value`, `daily_rate`, `contribution`, `contribution_timing`,
`tax_rate`. -/
structure TConfig where
  init_value : ℚ
  daily_rate : ℚ
  contribution : ℚ
  contribution_timing : Timing
  tax_rate : ℚ
  deriving DecidableEq, Repr

/-- One row of `timeline` (`src/pycic/core.py`, lines 324-335), before the
final `DataFrame.round(2)`; `date` is the day number. -/
structure TRec where
  date : ℕ
  start_balance : ℚ
  contribution : ℚ
  gross_interest : ℚ
  tax : ℚ
  net_interest : ℚ
  end_balance : ℚ
  deriving DecidableEq, Repr

/-- The final `timeline_df[cols_to_round].round(2)`: every numeric column of
a row rounded to two decimals. -/
def roundTRec (r : TRec) : TRec :=
  ⟨r.date, round2 r.start_balance, round2 r.contribution,
   round2 r.gross_interest, round2 r.tax, round2 r.net_interest,
   round2 r.end_balance⟩

/-- Loop state of `timeline`: `current_balance` and `last_comp_date`. -/
structure TSt where
  balance : ℚ
  lastComp : ℕ
  deriving DecidableEq, Repr

/-- Processing of the initial date (`src/pycic/core.py`, lines 266-283):
apply a Start contribution scheduled on the start date and emit the first
row. -/
def timelineInit (c : TConfig) (startD : ℕ) (contrDates : Finset ℕ) :
    TSt × TRec :=
  let hit := startD ∈ contrDates ∧ c.contribution_timing = Timing.atStart
  let ic : ℚ := if hit then c.contribution else 0
  let b := if hit then c.init_value + c.contribution else c.init_value
  (⟨b, startD⟩, ⟨startD, c.init_value, ic, 0, 0, 0, b⟩)

/-- The body of the `for current_date in sorted_dates` loop of `timeline`
(`src/pycic/core.py`, lines 288-337): Start contribution, then interest for
the elapsed days since the last compounding date, then End contribution. -/
def timelineStep (c : TConfig) (compDates contrDates : Finset ℕ)
    (d : ℕ) (s : TSt) : TSt × TRec :=
  let sb := s.balance
  let hitStart := d ∈ contrDates ∧ c.contribution_timing = Timing.atStart
  let b1 := if hitStart then sb + c.contribution else sb
  let ct1 : ℚ := if hitStart then c.contribution else 0
  let isComp := d ∈ compDates
  let days := d - s.lastComp
  let doInterest := isComp ∧ 0 < days
  let gross : ℚ := if doInterest then b1 * ((1 + c.daily_rate) ^ days - 1) else 0
  let tax : ℚ := if doInterest then gross * c.tax_rate else 0
  let net : ℚ := gross - tax
  let b2 := if doInterest then b1 + net else b1
  let lc := if isComp then d else s.lastComp
  let hitEnd := d ∈ contrDates ∧ c.contribution_timing = Timing.atEnd
  let b3 := if hitEnd then b2 + c.contribution else b2
  let ct := ct1 + (if hitEnd then c.contribution else 0)
  (⟨b3, lc⟩, ⟨d, sb, ct, gross, tax, net, b3⟩)

/-- The `timeline` loop on an explicit date list. -/
def timelineAux (c : TConfig) (compDates contrDates : Finset ℕ) :
    List ℕ → TSt → List TRec
  | [], _ => []
  | d :: ds, s =>
    let sr := timelineStep c compDates contrDates d s
    sr.2 :: timelineAux c compDates contrDates ds sr.1

/-- `sorted_dates`: the union of `{start_ts, end_ts}`, the compounding dates
and the contribution dates, restricted to `[start_ts, end_ts]` and sorted
ascending (`src/pycic/core.py`, lines 255-256). -/
def eventDates (startD endD : ℕ) (compDates contrDates : Finset ℕ) :
    List ℕ :=
  (((insert startD (insert endD (compDates ∪ contrDates))).filter
    (fun d => startD ≤ d ∧ d ≤ endD)).sort (· ≤ ·))

/-- `CompoundInterest.timeline` of `src/pycic/core.py` before the final
rounding: the initial row, then one row per event date after the start date
(the loop's `if current_date == start_ts: continue`). -/
def timelineRaw (c : TConfig) (startD endD : ℕ)
    (compDates contrDates : Finset ℕ) : List TRec :=
  let ir := timelineInit c startD contrDates
  ir.2 :: timelineAux c compDates contrDates
    ((eventDates startD endD compDates contrDates).filter (· ≠ startD)) ir.1

/-- `CompoundInterest.timeline` of `src/pycic/core.py`: the produced rows,
with every numeric column rounded to two decimals by
`timeline_df[cols_to_round].round(2)`. -/
def timeline (c : TConfig) (startD endD : ℕ)
    (compDates contrDates : Finset ℕ) : List TRec :=
  (timelineRaw c startD endD compDates contrDates).map roundTRec

/-! ## Constructor validation -/

/-- The two kinds of exception the constructors raise: `TypeError` (wrong
type/shape — the spec's `InvalidArgument`) and `ValueError` (value outside
its domain — the spec's `OutOfRange`, also used for unrecognized tags). -/
inductive PyErr
  | typeError (msg : String)
  | valueError (msg : String)
  deriving DecidableEq, Repr

/-- The numeric-value checks of `CompoundInterest.__init__` in
`src/pycic/calculator.py` (lines 57-83), in source order, followed by
construction of the stored object.  Frequency and timing tags arrive as
already-recognized enum values (their string validation is modelled by
`validateStrings` below); `contribution_freq = None` defaults to
`comp_freq`. -/
def mkCalcConfig (init_value interest_rate years : ℚ) (comp_freq : Freq)
    (contribution : ℚ) (contribution_freq : Option Freq) (timing : Timing)
    (tax_rate : ℚ) : Except PyErr Config :=
  if init_value < 0 then .error (.valueError "init_value must be non-negative")
  else if interest_rate < 0 ∨ 1 < interest_rate then
    .error (.valueError "interest_rate must be between 0 and 1")
  else if years ≤ 0 then .error (.valueError "years must be positive")
  else if 200 < years then .error (.valueError "years must be 200 or less")
  else if contribution < 0 then
    .error (.valueError "contribution must be non-negative")
  else if ¬(0 ≤ tax_rate ∧ tax_rate ≤ 1) then
    .error (.valueError "tax_rate must be between 0 and 1")
  else .ok ⟨init_value, interest_rate, years, comp_freq, contribution,
    contribution_freq.getD comp_freq, timing, tax_rate⟩

/-- Constructor outcomes are compared syntactically in the concrete
validation scenarios. -/
instance {ε α : Type} [DecidableEq ε] [DecidableEq α] :
    DecidableEq (Except ε α) := fun a b =>
  match a, b with
  | .error e, .error f =>
    if h : e = f then .isTrue (by rw [h])
    else .isFalse (fun hh => h (by cases hh; rfl))
  | .error _, .ok _ => .isFalse (fun hh => Except.noConfusion hh)
  | .ok _, .error _ => .isFalse (fun hh => Except.noConfusion hh)
  | .ok x, .ok y =>
    if h : x = y then .isTrue (by rw [h])
    else .isFalse (fun hh => h (by cases hh; rfl))

/-- The seven `rate_basis` tags of `src/pycic/core.py`. -/
inductive RateBasis
  | pa | ps | pq | pm | pbiw | pw | pd
  deriving DecidableEq, Repr

/-- The string part of `RATE_PERIOD_MAP` of `src/pycic/core.py`: each rate
basis names a frequency. -/
def RATE_PERIOD_MAP : RateBasis → Freq
  | .pa => .annually
  | .ps => .semiannually
  | .pq => .quarterly
  | .pm => .monthly
  | .pbiw => .biweekly
  | .pw => .weekly
  | .pd => .daily

/-- The state stored by `CompoundInterest.__init__` of `src/pycic/core.py`
(calendar-date engine). -/
structure CoreConfig where
  init_value : ℚ
  nominal_interest_rate : ℚ
  rate_basis : RateBasis
  years : ℚ
  start_date : ℕ
  comp_freq : Freq
  contribution : ℚ
  contribution_freq : Option Freq
  contribution_timing : Timing
  tax_rate : ℚ
  deriving DecidableEq, Repr

/-- The value checks of `CompoundInterest.__init__` in `src/pycic/core.py`
(lines 103-196), in source order, followed by construction of the stored
object.  The source checks `interest_rate < 0` but not `interest_rate > 1`,
and performs no range check at all on `contribution` (only the `isinstance`
type check); `comp_freq = None` defaults to the frequency named by
`rate_basis`.  `contribution_freq` is stored as given (possibly `None`). -/
def mkCoreConfig (init_value interest_rate : ℚ) (rate_basis : RateBasis)
    (years : ℚ) (start_date : ℕ) (comp_freq : Option Freq)
    (contribution : ℚ) (contribution_freq : Option Freq) (timing : Timing)
    (tax_rate : ℚ) : Except PyErr CoreConfig :=
  if init_value < 0 then .error (.valueError "init_value must be non-negative.")
  else if interest_rate < 0 then
    .error (.valueError "interest_rate must be non-negative.")
  else if years ≤ 0 then .error (.valueError "years must be greater than zero.")
  else if 200 < years then .error (.valueError "years must not exceed 200.")
  else if ¬(0 ≤ tax_rate ∧ tax_rate ≤ 1) then
    .error (.valueError "tax_rate must be between 0 and 1 (inclusive).")
  else .ok ⟨init_value, interest_rate, rate_basis, years, start_date,
    comp_freq.getD (RATE_PERIOD_MAP rate_basis), contribution,
    contribution_freq, timing, tax_rate⟩

/-! ## String normalization in the period-index constructor

`src/pycic/calculator.py`, lines 85-111: each string argument is normalized
by `.strip().lower()` before membership validation, and the normalized form
is what gets stored.  Python's `x or y` takes `y` when `x` is `None` or the
empty string. -/

/-- The keys of `FREQ_MAP` in `src/pycic/utils.py`. -/
def freqKeys : List String :=
  ["annually", "semiannually", "quarterly", "monthly", "biweekly", "weekly",
   "daily"]

/-- Python's `s.strip()`: drop leading and trailing whitespace, here on
the string's character list. -/
def pyStrip (l : List Char) : List Char :=
  ((l.dropWhile Char.isWhitespace).reverse.dropWhile Char.isWhitespace).reverse

/-- Python's `s.strip().lower()` on an ASCII string. -/
def pyNormalize (s : String) : String :=
  ⟨(pyStrip s.data).map Char.toLower⟩

/-- The string-parameter validation and normalization of
`CompoundInterest.__init__` in `src/pycic/calculator.py` (lines 85-111):
returns the stored `(comp_freq, contribution_freq, contribution_timing)`
triple.  `contribution_freq = none` models Python `None` (the only
non-string value that reaches the `or`); a `some` empty string is also
falsy for `or`. -/
def validateStrings (comp_freq : String) (contribution_freq : Option String)
    (contribution_timing : String) : Except PyErr (String × String × String) :=
  let cf := pyNormalize comp_freq
  if cf ∉ freqKeys then
    .error (.valueError "Invalid compounding frequency")
  else
    let rawCtf := match contribution_freq with
      | none => cf
      | some s => if s = "" then cf else s
    let ctf := pyNormalize rawCtf
    if ctf ∉ freqKeys then
      .error (.valueError "Invalid contribution frequency")
    else
      let t := pyNormalize contribution_timing
      if t ∉ (["start", "end"] : List String) then
        .error (.valueError "contribution_timing must be either start or end")
      else .ok (cf, ctf, t)

/-! ## Checked-arithmetic instrumentation of the period-index passes

Every `/`, `//` and `%` of the two stepping passes is replaced by a checked
operation that fails like Python's `ZeroDivisionError` on a zero
denominator; a `.ok` result certifies that the pass completes without
raising. -/

/-- Division that fails on a zero denominator, as Python's `/` (the quotient
the source takes `math.floor` of is here the floored `ℕ`-quotient
directly). -/
def checkedDiv (a b : ℕ) : Except String ℕ :=
  if b = 0 then .error "ZeroDivisionError" else .ok (a / b)

/-- Remainder that fails on a zero modulus, as Python's `%`. -/
def checkedMod (a b : ℕ) : Except String ℕ :=
  if b = 0 then .error "ZeroDivisionError" else .ok (a % b)

/-- The `deposit_days` comprehension with checked division: the loop body —
and hence the division by `n_contrib` — runs once per element of
`range(n_contrib)`. -/
def deposit_daysE (t : Timing) (T n : ℕ) : Except String (Finset ℕ) := do
  match t with
  | .atStart =>
    let qs ← (List.range n).mapM (fun i => checkedDiv (i * T) n)
    pure (qs.map (· + 1)).toFinset
  | .atEnd =>
    let qs ← (List.range n).mapM (fun i => checkedDiv ((i + 1) * T) n)
    pure qs.toFinset

/-- The `breakdown` loop with the `period % compound_interval` test
checked at every iteration. -/
def breakdownAuxE (c : Config) (pr : ℚ) (dd : Finset ℕ) (n ci : ℕ) :
    List ℕ → St → Except String (List Rec)
  | [], _ => pure []
  | p :: ps, s => do
    let _ ← checkedMod p ci
    let sr := breakdownStep c pr dd n ci p s
    let rest ← breakdownAuxE c pr dd n ci ps sr.1
    pure (roundRec sr.2 :: rest)

/-- The `breakdown` pass with every division and remainder checked
(`compound_interval = freq // compound_periods` itself is a `//`). -/
def breakdownE (c : Config) (pr : ℚ) : Except String (List Rec) := do
  let ci ← checkedDiv c.freq c.compound_periods
  let dd ← deposit_daysE c.contribution_timing c.total_periods c.n_contrib
  breakdownAuxE c pr dd c.n_contrib ci c.periods ⟨c.init_value, 0⟩

/-- The `future_value` loop with the `period % compound_interval` test
checked at every iteration. -/
def fvAuxE (c : Config) (pr : ℚ) (dd : Finset ℕ) (n ci : ℕ) :
    List ℕ → St → Except String St
  | [], s => pure s
  | p :: ps, s => do
    let _ ← checkedMod p ci
    fvAuxE c pr dd n ci ps (fvStep c pr dd n ci s p)

/-- The `future_value` pass (default `inflation = 0.0`) with every division
and remainder checked. -/
def future_valueE (c : Config) (pr : ℚ) : Except String ℚ := do
  let ci ← checkedDiv c.freq c.compound_periods
  let dd ← deposit_daysE c.contribution_timing c.total_periods c.n_contrib
  let s ← fvAuxE c pr dd c.n_contrib ci c.periods ⟨c.init_value, 0⟩
  pure (round2 s.balance)

/-! ## Reconciliation predicates and step-observation helpers -/

/-- Adjacent-record reconciliation, with absolute tolerance `tol`, for the
period-index breakdown rows. -/
def ReconRec (tol : ℚ) (a b : Rec) : Prop :=
  |b.ending_balance - (a.ending_balance + b.contribution_val + b.net_interest)| ≤ tol

instance (tol : ℚ) (a b : Rec) : Decidable (ReconRec tol a b) :=
  inferInstanceAs (Decidable (_ ≤ _))

/-- Adjacent-record reconciliation, with absolute tolerance `tol`, for the
calendar-date timeline rows. -/
def ReconTRec (tol : ℚ) (a b : TRec) : Prop :=
  |b.end_balance - (a.end_balance + b.contribution + b.net_interest)| ≤ tol

instance (tol : ℚ) (a b : TRec) : Decidable (ReconTRec tol a b) :=
  inferInstanceAs (Decidable (_ ≤ _))

/-- The Start-timing contribution the period-index step applies at period
`p` in state `s` (zero unless scheduled, budgeted and Start-timed). -/
def startContrib (c : Config) (dd : Finset ℕ) (n p : ℕ) (s : St) : ℚ :=
  if c.contribution_timing = Timing.atStart ∧ p ∈ dd ∧ s.contrib_count < n
  then c.contribution else 0

/-- The End-timing contribution the period-index step applies at period `p`
in state `s` (with End timing the count is unchanged when the interest is
credited, so the budget test reads the incoming count). -/
def endContrib (c : Config) (dd : Finset ℕ) (n p : ℕ) (s : St) : ℚ :=
  if c.contribution_timing = Timing.atEnd ∧ p ∈ dd ∧ s.contrib_count < n
  then c.contribution else 0

/-- The Start-timing contribution the calendar-date step applies on day
`d`. -/
def startContribT (c : TConfig) (contrDates : Finset ℕ) (d : ℕ) : ℚ :=
  if d ∈ contrDates ∧ c.contribution_timing = Timing.atStart
  then c.contribution else 0

/-- The End-timing contribution the calendar-date step applies on day
`d`. -/
def endContribT (c : TConfig) (contrDates : Finset ℕ) (d : ℕ) : ℚ :=
  if d ∈ contrDates ∧ c.contribution_timing = Timing.atEnd
  then c.contribution else 0

/-! ## Concrete scenario configurations -/

/-- `CompoundInterest(10000, 0.05, 5, "annually", 100, "annually", "end",
0.25)`. -/
def scenarioEnd : Config :=
  ⟨10000, 5/100, 5, .annually, 100, .annually, .atEnd, 1/4⟩

/-- Same scenario with `contribution_timing="start"`. -/
def scenarioStart : Config :=
  ⟨10000, 5/100, 5, .annually, 100, .annually, .atStart, 1/4⟩

/-- Same scenario with `contribution=0`. -/
def scenarioNoContrib : Config :=
  ⟨10000, 5/100, 5, .annually, 0, .annually, .atEnd, 1/4⟩

/-- Same scenario with `tax_rate=0.0`. -/
def scenarioNoTax : Config :=
  ⟨10000, 5/100, 5, .annually, 100, .annually, .atEnd, 0⟩

/-- A small calendar-date scenario: balance 100, daily rate `0.1`,
contribution 10 at End timing, tax 25%, run from day 0 to day 30 with
compounding days `{10, 20}` and contribution days `{15, 30}`. -/
def timelineScenario : TConfig := ⟨100, 1/10, 10, .atEnd, 1/4⟩

/-- `CompoundInterest(100.101, 0.00003, 2, "annually")`: a validated
configuration whose two breakdown rows expose the two-decimal rounding of
the record fields (the cent boundary falls between the rounded summands). -/
def cfgRound : Config :=
  ⟨100101/1000, 3/100000, 2, .annually, 0, .annually, .atEnd, 0⟩

/-- `CompoundInterest(100, 0.05, 1, "annually", contribution=0.001)`: one
annual contribution of a tenth of a cent, an evenly dividing schedule. -/
def cfgTiny : Config :=
  ⟨100, 5/100, 1, .annually, 1/1000, .annually, .atEnd, 0⟩

end Pycic

set_option allowUnsafeReducibility true
attribute [semireducible] Rat.add Rat.mul Rat.sub Rat.div Rat.inv Rat.neg
attribute [semireducible] Rat.ofScientific
set_option maxRecDepth 8000

namespace Pycic

/-! ## Shared structural lemmas about the period-index run -/

/-- Per-step reconciliation: the row's ending balance is the incoming
balance plus the row's contribution plus the row's net interest, exactly. -/
theorem breakdownStep_ending (c : Config) (pr : ℚ) (dd : Finset ℕ)
    (n ci p : ℕ) (s : St) :
    (breakdownStep c pr dd n ci p s).2.ending_balance =
      s.balance + (breakdownStep c pr dd n ci p s).2.contribution_val +
        (breakdownStep c pr dd n ci p s).2.net_interest := by
  unfold breakdownStep
  rcases hT : c.contribution_timing with _ | _ <;>
    simp only [hT] <;>
    by_cases h1 : p ∈ dd <;>
    by_cases h2 : s.contrib_count < n <;>
    simp [h1, h2] <;> ring

/-- The state balance leaving a step is the row's ending balance. -/
theorem breakdownStep_balance (c : Config) (pr : ℚ) (dd : Finset ℕ)
    (n ci p : ℕ) (s : St) :
    (breakdownStep c pr dd n ci p s).1.balance =
      (breakdownStep c pr dd n ci p s).2.ending_balance := rfl

/-- Head of the raw breakdown run: its ending balance reconciles with the
incoming state balance. -/
theorem breakdownRawAux_head (c : Config) (pr : ℚ) (dd : Finset ℕ)
    (n ci : ℕ) (L : List ℕ) (s : St) (r : Rec)
    (h : (breakdownRawAux c pr dd n ci L s).head? = some r) :
    r.ending_balance = s.balance + r.contribution_val + r.net_interest := by
  cases L with
  | nil => simp [breakdownRawAux] at h
  | cons p ps =>
    simp only [breakdownRawAux, List.head?_cons, Option.some.injEq] at h
    subst h
    exact breakdownStep_ending c pr dd n ci p s

/-- Exact reconciliation holds between every two adjacent rows of the raw
breakdown run, whatever the starting state. -/
theorem breakdownRawAux_chain (c : Config) (pr : ℚ) (dd : Finset ℕ)
    (n ci : ℕ) (L : List ℕ) (s : St) :
    List.Chain' (ReconRec 0) (breakdownRawAux c pr dd n ci L s) := by
  induction L generalizing s with
  | nil => simp [breakdownRawAux]
  | cons p ps ih =>
    rw [breakdownRawAux]
    refine List.chain'_cons'.mpr ⟨?_, ih _⟩
    intro r hr
    have := breakdownRawAux_head c pr dd n ci ps _ r hr
    rw [breakdownStep_balance] at this
    simp [ReconRec, this]

/-- The rounded breakdown run is the raw run with every row rounded:
rounding is applied on output only and never feeds back into the state. -/
theorem breakdownAux_eq_map (c : Config) (pr : ℚ) (dd : Finset ℕ)
    (n ci : ℕ) (L : List ℕ) (s : St) :
    breakdownAux c pr dd n ci L s =
      (breakdownRawAux c pr dd n ci L s).map roundRec := by
  induction L generalizing s with
  | nil => simp [breakdownAux, breakdownRawAux]
  | cons p ps ih => simp [breakdownAux, breakdownRawAux, ih]

/-- `breakdown` is the rounding of `breakdownRaw`. -/
theorem breakdown_eq_map (c : Config) (pr : ℚ) :
    breakdown c pr = (breakdownRaw c pr).map roundRec :=
  breakdownAux_eq_map c pr _ _ _ _ _

/-! ## Shared structural lemmas about the calendar-date run -/

/-- Per-step reconciliation for the timeline loop body. -/
theorem timelineStep_ending (c : TConfig) (comp contr : Finset ℕ)
    (d : ℕ) (s : TSt) :
    (timelineStep c comp contr d s).2.end_balance =
      s.balance + (timelineStep c comp contr d s).2.contribution +
        (timelineStep c comp contr d s).2.net_interest := by
  unfold timelineStep
  rcases hT : c.contribution_timing with _ | _ <;>
    simp only [hT] <;>
    by_cases h1 : d ∈ contr <;>
    by_cases h2 : d ∈ comp ∧ s.lastComp < d <;>
    simp [h1, h2, Nat.sub_pos_iff_lt] <;> ring

/-- The state balance leaving a timeline step is the row's ending
balance. -/
theorem timelineStep_balance (c : TConfig) (comp contr : Finset ℕ)
    (d : ℕ) (s : TSt) :
    (timelineStep c comp contr d s).1.balance =
      (timelineStep c comp contr d s).2.end_balance := rfl

/-- Head of the timeline loop: its ending balance reconciles with the
incoming state balance. -/
theorem timelineAux_head (c : TConfig) (comp contr : Finset ℕ)
    (L : List ℕ) (s : TSt) (r : TRec)
    (h : (timelineAux c comp contr L s).head? = some r) :
    r.end_balance = s.balance + r.contribution + r.net_interest := by
  cases L with
  | nil => simp [timelineAux] at h
  | cons d ds =>
    simp only [timelineAux, List.head?_cons, Option.some.injEq] at h
    subst h
    exact timelineStep_ending c comp contr d s

/-- Exact reconciliation between adjacent rows of the timeline loop. -/
theorem timelineAux_chain (c : TConfig) (comp contr : Finset ℕ)
    (L : List ℕ) (s : TSt) :
    List.Chain' (ReconTRec 0) (timelineAux c comp contr L s) := by
  induction L generalizing s with
  | nil => simp [timelineAux]
  | cons d ds ih =>
    rw [timelineAux]
    refine List.chain'_cons'.mpr ⟨?_, ih _⟩
    intro r hr
    have := timelineAux_head c comp contr ds _ r hr
    rw [timelineStep_balance] at this
    simp [ReconTRec, this]

/-- Exact reconciliation for the full raw timeline, initial row included. -/
theorem timelineRaw_chain (c : TConfig) (startD endD : ℕ)
    (comp contr : Finset ℕ) :
    List.Chain' (ReconTRec 0) (timelineRaw c startD endD comp contr) := by
  unfold timelineRaw
  refine List.chain'_cons'.mpr ⟨?_, timelineAux_chain _ _ _ _ _⟩
  intro r hr
  have := timelineAux_head c comp contr _ _ r hr
  have hinit : (timelineInit c startD contr).1.balance =
      (timelineInit c startD contr).2.end_balance := rfl
  rw [hinit] at this
  simp [ReconTRec, this]

/-! ## C1: reconciliation -/

/-- C1, counterexample to the claim as stated: for the validated
configuration `cfgRound` the produced (two-decimal-rounded) breakdown
records do not reconcile within `1e-9`: row 2 has ending balance `100.11`,
row 1 has ending balance `100.10`, and row 2's contribution and net
interest both round to `0.00`, so the difference is a full cent. -/
theorem recon_rounded_cex :
    Valid cfgRound ∧
      ¬ List.Chain' (ReconRec (1/1000000000)) (breakdown cfgRound (3/100000)) := by
  refine ⟨by decide, ?_⟩
  have h : breakdown cfgRound (3/100000) =
      [⟨1, 1001/10, 0, 0, 0, 0, 1001/10⟩,
       ⟨2, 1001/10, 0, 0, 0, 0, 10011/100⟩] := by decide
  rw [h, List.chain'_cons]
  rintro ⟨hab, -⟩
  exact absurd hab (by decide)

/-- C1 (amended): for every configuration and per-period rate, and every
calendar-date scenario, each record after the first reconciles exactly
(tolerance `0`, hence within `1e-9`) with its predecessor on the engine's
internal, unrounded values — for both the period-index breakdown sequence
and the calendar-date timeline sequence.  The produced records expose these
values rounded to two decimals (see `outputs_rounded`), so on the rounded
fields the discrepancy can reach a cent and a half. -/
theorem recon_unrounded (c : Config) (pr : ℚ) (tc : TConfig)
    (startD endD : ℕ) (comp contr : Finset ℕ) :
    List.Chain' (ReconRec 0) (breakdownRaw c pr) ∧
      List.Chain' (ReconTRec 0) (timelineRaw tc startD endD comp contr) :=
  ⟨breakdownRawAux_chain _ _ _ _ _ _ _, timelineRaw_chain _ _ _ _ _⟩

/-! ## C2: the literal period-index scenarios -/

/-- C2: with annual compounding the per-period rate is
`(1 + 0.05) ** (1/1) - 1 = 0.05` exactly, and `future_value()` returns
`12559.93` for the End-timing scenario, `12580.14` for the Start-timing
scenario, `12021.00` with `contribution=0`, and `13315.38` with
`tax_rate=0`. -/
theorem literal_scenarios :
    future_value scenarioEnd (5/100) = 1255993/100 ∧
    future_value scenarioStart (5/100) = 1258014/100 ∧
    future_value scenarioNoContrib (5/100) = 12021 ∧
    future_value scenarioNoTax (5/100) = 1331538/100 := by
  refine ⟨by decide, by decide, by decide, by decide⟩

/-! ## C3: eager range validation at configuration time -/

/-- C3: the period-index constructor rejects the out-of-range inputs, but
the calendar-date constructor of `src/pycic/core.py` accepts an annual rate
above 1 and a negative contribution amount and hands back a fully usable
object: its `__init__` checks `interest_rate < 0` only, and runs no range
check at all on `contribution`. -/
theorem core_accepts_out_of_range :
    mkCalcConfig 10000 (3/2) 5 .annually 100 none .atEnd 0
      = .error (.valueError "interest_rate must be between 0 and 1") ∧
    mkCalcConfig 10000 (5/100) 5 .annually (-100) none .atEnd 0
      = .error (.valueError "contribution must be non-negative") ∧
    mkCoreConfig 10000 (3/2) .pa 5 0 none (-100) none .atEnd 0
      = .ok ⟨10000, 3/2, .pa, 5, 0, .annually, -100, none, .atEnd, 0⟩ := by
  refine ⟨by decide, by decide, by decide⟩

/-! ## C9: two-decimal rounding of every exposed value -/

/-- Rounding an integer changes nothing. -/
theorem roundHalfEven_intCast (m : ℤ) : roundHalfEven (m : ℚ) = m := by
  unfold roundHalfEven
  rw [Int.floor_intCast]
  norm_num

/-- `round2` is idempotent: a value that has been rounded to two decimals
is a fixed point of two-decimal rounding. -/
theorem round2_idem (q : ℚ) : round2 (round2 q) = round2 q := by
  unfold round2
  have h : (roundHalfEven (q * 100) : ℚ) / 100 * 100
      = (roundHalfEven (q * 100) : ℚ) := by ring
  rw [h, roundHalfEven_intCast]

/-- A rounded record is a fixed point of row rounding. -/
theorem roundRec_idem (r : Rec) : roundRec (roundRec r) = roundRec r := by
  simp [roundRec, round2_idem]

/-- A rounded timeline row is a fixed point of row rounding. -/
theorem roundTRec_idem (r : TRec) : roundTRec (roundTRec r) = roundTRec r := by
  simp [roundTRec, round2_idem]

/-- C9: every numeric value exposed at the public interface is rounded to
two decimals while the internal accumulation is unrounded: `breakdown` is
the unrounded run with each row's numeric fields rounded on output (the
state threading never sees a rounded value), every produced breakdown row
and timeline row is a fixed point of two-decimal rounding, `future_value`
returns the final unrounded balance rounded to two decimals, and `timeline`
is the unrounded run with all numeric columns rounded. -/
theorem outputs_rounded (c : Config) (pr : ℚ) (tc : TConfig)
    (startD endD : ℕ) (comp contr : Finset ℕ) :
    breakdown c pr = (breakdownRaw c pr).map roundRec ∧
    (∀ r ∈ breakdown c pr, roundRec r = r) ∧
    future_value c pr = round2 ((c.periods.foldl
      (fvStep c pr (deposit_days c.contribution_timing c.total_periods
        c.n_contrib) c.n_contrib c.compound_interval)
      ⟨c.init_value, 0⟩).balance) ∧
    timeline tc startD endD comp contr
      = (timelineRaw tc startD endD comp contr).map roundTRec ∧
    (∀ r ∈ timeline tc startD endD comp contr, roundTRec r = r) := by
  refine ⟨breakdown_eq_map c pr, ?_, rfl, rfl, ?_⟩
  · intro r hr
    rw [breakdown_eq_map] at hr
    obtain ⟨r0, -, rfl⟩ := List.mem_map.mp hr
    exact roundRec_idem r0
  · intro r hr
    obtain ⟨r0, -, rfl⟩ := List.mem_map.mp hr
    exact roundTRec_idem r0

/-! ## C5: interest base relative to Start/End contributions -/

/-- C5: in every step of both engines, the gross interest of an event is
computed on the balance after the Start-timing contribution scheduled for
that event has been added (the interest base is
`incoming balance + startContrib`), and the End-timing contribution for the
event is added only after the net interest: the ending balance is the
interest base plus net interest plus the End contribution. -/
theorem interest_ordering (c : Config) (pr : ℚ) (dd : Finset ℕ) (n ci p : ℕ)
    (s : St) (tc : TConfig) (comp contr : Finset ℕ) (d : ℕ) (ts : TSt) :
    ((breakdownStep c pr dd n ci p s).2.gross_interest =
      if p % ci = 0 then (s.balance + startContrib c dd n p s) * pr else 0) ∧
    ((breakdownStep c pr dd n ci p s).2.ending_balance =
      s.balance + startContrib c dd n p s +
        (breakdownStep c pr dd n ci p s).2.net_interest +
        endContrib c dd n p s) ∧
    ((timelineStep tc comp contr d ts).2.gross_interest =
      if d ∈ comp ∧ 0 < d - ts.lastComp then
        (ts.balance + startContribT tc contr d) *
          ((1 + tc.daily_rate) ^ (d - ts.lastComp) - 1)
      else 0) ∧
    ((timelineStep tc comp contr d ts).2.end_balance =
      ts.balance + startContribT tc contr d +
        (timelineStep tc comp contr d ts).2.net_interest +
        endContribT tc contr d) := by
  refine ⟨?_, ?_, ?_, ?_⟩
  · unfold breakdownStep startContrib
    rcases hT : c.contribution_timing with _ | _ <;>
      simp only [hT] <;>
      by_cases h1 : p ∈ dd <;>
      by_cases h2 : s.contrib_count < n <;>
      by_cases h3 : p % ci = 0 <;>
      simp [h1, h2, h3]
  · unfold breakdownStep startContrib endContrib
    rcases hT : c.contribution_timing with _ | _ <;>
      simp only [hT] <;>
      by_cases h1 : p ∈ dd <;>
      by_cases h2 : s.contrib_count < n <;>
      simp [h1, h2]
  · unfold timelineStep startContribT
    rcases hT : tc.contribution_timing with _ | _ <;>
      simp only [hT] <;>
      by_cases h1 : d ∈ contr <;>
      by_cases h2 : d ∈ comp ∧ ts.lastComp < d <;>
      simp [h1, h2, Nat.sub_pos_iff_lt]
  · unfold timelineStep startContribT endContribT
    rcases hT : tc.contribution_timing with _ | _ <;>
      simp only [hT] <;>
      by_cases h1 : d ∈ contr <;>
      by_cases h2 : d ∈ comp ∧ ts.lastComp < d <;>
      simp [h1, h2, Nat.sub_pos_iff_lt]

/-! ## C8: starting balance after a Start contribution -/

/-- C8: in the breakdown path, a period that applies a Start-timing
contribution records as starting balance the balance after that
contribution was added; as a consequence its ending balance is its
recorded starting balance plus its net interest (the contribution is
already inside the starting balance). -/
theorem start_contrib_starting_balance (c : Config) (pr : ℚ)
    (dd : Finset ℕ) (n ci p : ℕ) (s : St)
    (ht : c.contribution_timing = Timing.atStart)
    (hp : p ∈ dd) (hb : s.contrib_count < n) :
    (breakdownStep c pr dd n ci p s).2.starting_balance
      = s.balance + c.contribution ∧
    (breakdownStep c pr dd n ci p s).2.ending_balance
      = (breakdownStep c pr dd n ci p s).2.starting_balance
        + (breakdownStep c pr dd n ci p s).2.net_interest := by
  unfold breakdownStep
  simp [ht, hp, hb]

/-- C8, witness: in the Start-timing literal scenario, period 1 is a
deposit day and its row records starting balance `10000 + 100`. -/
theorem start_contrib_starting_balance_witness :
    (scenarioStart.contribution_timing = Timing.atStart ∧
      1 ∈ deposit_days scenarioStart.contribution_timing
        scenarioStart.total_periods scenarioStart.n_contrib ∧
      (⟨10000, 0⟩ : St).contrib_count < scenarioStart.n_contrib) ∧
    ((breakdownStep scenarioStart (5/100)
        (deposit_days scenarioStart.contribution_timing
          scenarioStart.total_periods scenarioStart.n_contrib)
        scenarioStart.n_contrib scenarioStart.compound_interval 1
        (⟨10000, 0⟩ : St)).2.starting_balance
      = (⟨10000, 0⟩ : St).balance + scenarioStart.contribution ∧
    (breakdownStep scenarioStart (5/100)
        (deposit_days scenarioStart.contribution_timing
          scenarioStart.total_periods scenarioStart.n_contrib)
        scenarioStart.n_contrib scenarioStart.compound_interval 1
        (⟨10000, 0⟩ : St)).2.ending_balance
      = (breakdownStep scenarioStart (5/100)
          (deposit_days scenarioStart.contribution_timing
            scenarioStart.total_periods scenarioStart.n_contrib)
          scenarioStart.n_contrib scenarioStart.compound_interval 1
          (⟨10000, 0⟩ : St)).2.starting_balance
        + (breakdownStep scenarioStart (5/100)
            (deposit_days scenarioStart.contribution_timing
              scenarioStart.total_periods scenarioStart.n_contrib)
            scenarioStart.n_contrib scenarioStart.compound_interval 1
            (⟨10000, 0⟩ : St)).2.net_interest) :=
  ⟨⟨rfl, by decide, by decide⟩,
    start_contrib_starting_balance scenarioStart (5/100) _ _ _ 1 _
      rfl (by decide) (by decide)⟩

/-! ## C7: monotone ending balances -/

/-- Banker's rounding never drops below the floor. -/
theorem roundHalfEven_ge (x : ℚ) : ⌊x⌋ ≤ roundHalfEven x := by
  unfold roundHalfEven
  split_ifs <;> omega

/-- Banker's rounding never exceeds the floor plus one. -/
theorem roundHalfEven_le (x : ℚ) : roundHalfEven x ≤ ⌊x⌋ + 1 := by
  unfold roundHalfEven
  split_ifs <;> omega

/-- Banker's rounding is monotone. -/
theorem roundHalfEven_mono {x y : ℚ} (h : x ≤ y) :
    roundHalfEven x ≤ roundHalfEven y := by
  have hf : ⌊x⌋ ≤ ⌊y⌋ := Int.floor_mono h
  rcases lt_or_eq_of_le hf with hlt | heq
  · calc roundHalfEven x ≤ ⌊x⌋ + 1 := roundHalfEven_le x
      _ ≤ ⌊y⌋ := hlt
      _ ≤ roundHalfEven y := roundHalfEven_ge y
  · unfold roundHalfEven
    rw [← heq]
    have hr : x - ⌊x⌋ ≤ y - ⌊x⌋ := by linarith
    split_ifs <;> first | omega | linarith

/-- Two-decimal rounding is monotone. -/
theorem round2_mono {a b : ℚ} (h : a ≤ b) : round2 a ≤ round2 b := by
  unfold round2
  have h1 : roundHalfEven (a * 100) ≤ roundHalfEven (b * 100) :=
    roundHalfEven_mono (by linarith)
  have h2 : (roundHalfEven (a * 100) : ℚ) ≤ (roundHalfEven (b * 100) : ℚ) := by
    exact_mod_cast h1
  linarith

/-- The contribution a breakdown row records is zero or the configured
amount. -/
theorem breakdownStep_cv_nonneg (c : Config) (pr : ℚ) (dd : Finset ℕ)
    (n ci p : ℕ) (s : St) (hc : 0 ≤ c.contribution) :
    0 ≤ (breakdownStep c pr dd n ci p s).2.contribution_val := by
  unfold breakdownStep
  dsimp only
  split_ifs <;> simp [hc]

/-- Under non-negative contribution and rate and a tax rate of at most
one, the net interest of a breakdown row is non-negative whenever the
incoming balance is. -/
theorem breakdownStep_net_nonneg (c : Config) (pr : ℚ) (dd : Finset ℕ)
    (n ci p : ℕ) (s : St) (hb : 0 ≤ s.balance) (hc : 0 ≤ c.contribution)
    (hpr : 0 ≤ pr) (htax : c.tax_rate ≤ 1) :
    0 ≤ (breakdownStep c pr dd n ci p s).2.net_interest := by
  unfold breakdownStep
  dsimp only
  by_cases hS : c.contribution_timing = Timing.atStart ∧ p ∈ dd ∧
      s.contrib_count < n <;>
    by_cases hC : p % ci = 0 <;>
    by_cases hT : 0 < c.tax_rate <;>
    simp only [hS, hC, hT, if_true, if_false, if_pos, if_neg, and_true,
      and_false, not_false_iff, ite_true, ite_false] <;>
    simp [hS, hC, hT] <;>
    nlinarith [mul_nonneg (add_nonneg hb hc) hpr, mul_nonneg hb hpr]

/-- Under the monotonicity hypotheses a step never decreases the
balance. -/
theorem breakdownStep_balance_mono (c : Config) (pr : ℚ) (dd : Finset ℕ)
    (n ci p : ℕ) (s : St) (hb : 0 ≤ s.balance) (hc : 0 ≤ c.contribution)
    (hpr : 0 ≤ pr) (htax : c.tax_rate ≤ 1) :
    s.balance ≤ (breakdownStep c pr dd n ci p s).1.balance := by
  rw [breakdownStep_balance, breakdownStep_ending]
  have h1 := breakdownStep_cv_nonneg c pr dd n ci p s hc
  have h2 := breakdownStep_net_nonneg c pr dd n ci p s hb hc hpr htax
  linarith

/-- Along the raw breakdown run the ending balances are non-decreasing,
and the first one dominates the incoming balance. -/
theorem breakdownRawAux_mono (c : Config) (pr : ℚ) (dd : Finset ℕ)
    (n ci : ℕ) (hc : 0 ≤ c.contribution) (hpr : 0 ≤ pr)
    (htax : c.tax_rate ≤ 1) (L : List ℕ) :
    ∀ s : St, 0 ≤ s.balance →
      List.Chain' (fun a b => a.ending_balance ≤ b.ending_balance)
        (breakdownRawAux c pr dd n ci L s) ∧
      ∀ r, (breakdownRawAux c pr dd n ci L s).head? = some r →
        s.balance ≤ r.ending_balance := by
  induction L with
  | nil => intro s _; simp [breakdownRawAux]
  | cons p ps ih =>
    intro s hs
    have hstep := breakdownStep_balance_mono c pr dd n ci p s hs hc hpr htax
    have hs' : 0 ≤ (breakdownStep c pr dd n ci p s).1.balance :=
      le_trans hs hstep
    obtain ⟨ihc, ihh⟩ := ih (breakdownStep c pr dd n ci p s).1 hs'
    constructor
    · rw [breakdownRawAux]
      refine List.chain'_cons'.mpr ⟨?_, ihc⟩
      intro r hr
      have := ihh r hr
      rw [breakdownStep_balance] at this
      exact this
    · intro r hr
      simp only [breakdownRawAux, List.head?_cons, Option.some.injEq] at hr
      subst hr
      rw [← breakdownStep_balance]
      exact hstep

/-- The contribution a timeline row records is non-negative when the
configured amount is. -/
theorem timelineStep_ct_nonneg (c : TConfig) (comp contr : Finset ℕ)
    (d : ℕ) (s : TSt) (hc : 0 ≤ c.contribution) :
    0 ≤ (timelineStep c comp contr d s).2.contribution := by
  unfold timelineStep
  dsimp only
  split_ifs <;> simp [hc]

/-- Under non-negative daily rate and tax rate at most one, the net
interest of a timeline row is non-negative whenever the incoming balance
is. -/
theorem timelineStep_net_nonneg (c : TConfig) (comp contr : Finset ℕ)
    (d : ℕ) (s : TSt) (hb : 0 ≤ s.balance) (hc : 0 ≤ c.contribution)
    (hdr : 0 ≤ c.daily_rate) (htax : c.tax_rate ≤ 1) :
    0 ≤ (timelineStep c comp contr d s).2.net_interest := by
  unfold timelineStep
  dsimp only
  have hpow : (1 : ℚ) ≤ (1 + c.daily_rate) ^ (d - s.lastComp) :=
    one_le_pow₀ (by linarith)
  by_cases hS : d ∈ contr ∧ c.contribution_timing = Timing.atStart <;>
    by_cases hC : d ∈ comp ∧ 0 < d - s.lastComp <;>
    simp only [hS, hC, if_true, if_false, ite_true, ite_false] <;>
    simp [hS, hC] <;>
    nlinarith [mul_nonneg (add_nonneg hb hc) (by linarith : (0:ℚ) ≤
      (1 + c.daily_rate) ^ (d - s.lastComp) - 1),
      mul_nonneg hb (by linarith : (0:ℚ) ≤
      (1 + c.daily_rate) ^ (d - s.lastComp) - 1)]

/-- A timeline step never decreases the balance. -/
theorem timelineStep_balance_mono (c : TConfig) (comp contr : Finset ℕ)
    (d : ℕ) (s : TSt) (hb : 0 ≤ s.balance) (hc : 0 ≤ c.contribution)
    (hdr : 0 ≤ c.daily_rate) (htax : c.tax_rate ≤ 1) :
    s.balance ≤ (timelineStep c comp contr d s).1.balance := by
  rw [timelineStep_balance, timelineStep_ending]
  have h1 := timelineStep_ct_nonneg c comp contr d s hc
  have h2 := timelineStep_net_nonneg c comp contr d s hb hc hdr htax
  linarith

/-- Along the timeline loop the ending balances are non-decreasing, and
the first one dominates the incoming balance. -/
theorem timelineAux_mono (c : TConfig) (comp contr : Finset ℕ)
    (hc : 0 ≤ c.contribution) (hdr : 0 ≤ c.daily_rate)
    (htax : c.tax_rate ≤ 1) (L : List ℕ) :
    ∀ s : TSt, 0 ≤ s.balance →
      List.Chain' (fun a b => a.end_balance ≤ b.end_balance)
        (timelineAux c comp contr L s) ∧
      ∀ r, (timelineAux c comp contr L s).head? = some r →
        s.balance ≤ r.end_balance := by
  induction L with
  | nil => intro s _; simp [timelineAux]
  | cons d ds ih =>
    intro s hs
    have hstep := timelineStep_balance_mono c comp contr d s hs hc hdr htax
    have hs' : 0 ≤ (timelineStep c comp contr d s).1.balance :=
      le_trans hs hstep
    obtain ⟨ihc, ihh⟩ := ih (timelineStep c comp contr d s).1 hs'
    constructor
    · rw [timelineAux]
      refine List.chain'_cons'.mpr ⟨?_, ihc⟩
      intro r hr
      have := ihh r hr
      rw [timelineStep_balance] at this
      exact this
    · intro r hr
      simp only [timelineAux, List.head?_cons, Option.some.injEq] at hr
      subst hr
      rw [← timelineStep_balance]
      exact hstep

/-- C7: with non-negative initial value, contribution and rate, and a tax
rate of at most one, the ending balances of the produced records are
non-decreasing, for the period-index breakdown and for the calendar-date
timeline (the rounded, exposed sequences; two-decimal rounding is
monotone). -/
theorem ending_balance_monotone (c : Config) (pr : ℚ) (tc : TConfig)
    (startD endD : ℕ) (comp contr : Finset ℕ)
    (h1 : 0 ≤ c.init_value) (h2 : 0 ≤ c.contribution) (h3 : 0 ≤ pr)
    (h4 : c.tax_rate ≤ 1) (g1 : 0 ≤ tc.init_value)
    (g2 : 0 ≤ tc.contribution) (g3 : 0 ≤ tc.daily_rate)
    (g4 : tc.tax_rate ≤ 1) :
    List.Chain' (fun a b => a.ending_balance ≤ b.ending_balance)
      (breakdown c pr) ∧
    List.Chain' (fun a b => a.end_balance ≤ b.end_balance)
      (timeline tc startD endD comp contr) := by
  constructor
  · rw [breakdown_eq_map, List.chain'_map]
    have hraw := (breakdownRawAux_mono c pr
      (deposit_days c.contribution_timing c.total_periods c.n_contrib)
      c.n_contrib c.compound_interval h2 h3 h4 c.periods
      ⟨c.init_value, 0⟩ h1).1
    exact hraw.imp (fun a b hab => round2_mono hab)
  · show List.Chain' _ ((timelineRaw tc startD endD comp contr).map roundTRec)
    rw [List.chain'_map]
    refine List.Chain'.imp (fun a b hab => round2_mono hab) ?_
    unfold timelineRaw
    have hb0 : 0 ≤ (timelineInit tc startD contr).1.balance := by
      unfold timelineInit
      dsimp only
      split_ifs <;> linarith
    refine List.chain'_cons'.mpr
      ⟨?_, (timelineAux_mono tc comp contr g2 g3 g4 _ _ hb0).1⟩
    intro r hr
    have := (timelineAux_mono tc comp contr g2 g3 g4 _ _ hb0).2 r hr
    exact this

/-- C7, witness: the hypotheses hold for the End-timing literal scenario
and the small calendar-date scenario, and the theorem applies there. -/
theorem ending_balance_monotone_witness :
    ((0:ℚ) ≤ scenarioEnd.init_value ∧ (0:ℚ) ≤ scenarioEnd.contribution ∧
      (0:ℚ) ≤ 5/100 ∧ scenarioEnd.tax_rate ≤ 1 ∧
      (0:ℚ) ≤ timelineScenario.init_value ∧
      (0:ℚ) ≤ timelineScenario.contribution ∧
      (0:ℚ) ≤ timelineScenario.daily_rate ∧ timelineScenario.tax_rate ≤ 1) ∧
    (List.Chain' (fun a b => a.ending_balance ≤ b.ending_balance)
      (breakdown scenarioEnd (5/100)) ∧
    List.Chain' (fun a b => a.end_balance ≤ b.end_balance)
      (timeline timelineScenario 0 30 {10, 20} {15, 30})) :=
  ⟨⟨by decide, by decide, by decide, by decide, by decide, by decide,
    by decide, by decide⟩,
   ending_balance_monotone scenarioEnd (5/100) timelineScenario 0 30
     {10, 20} {15, 30} (by decide) (by decide) (by decide) (by decide)
     (by decide) (by decide) (by decide) (by decide)⟩

/-! ## C6: the stepping passes cannot fail -/

/-- Every frequency maps to a positive occurrences-per-year count. -/
theorem FREQ_MAP_pos (f : Freq) : 0 < FREQ_MAP f := by
  cases f <;> decide

/-- `compound_interval = freq // compound_periods` is positive: the
stepping frequency is the max of two positive counts. -/
theorem compound_interval_pos (c : Config) : 0 < c.compound_interval :=
  Nat.div_pos (Nat.le_max_left _ _) (FREQ_MAP_pos _)

/-- With a non-zero divisor, the checked division over a list of indices
succeeds and returns the floored quotients. -/
theorem mapM_checkedDiv_ok (n : ℕ) (hn : n ≠ 0) (g : ℕ → ℕ) (l : List ℕ) :
    (l.mapM (fun i => checkedDiv (g i) n)) = .ok (l.map (fun i => g i / n)) := by
  induction l with
  | nil => rfl
  | cons a l ih =>
    rw [List.mapM_cons, List.map_cons]
    have h1 : checkedDiv (g a) n = .ok (g a / n) := by
      unfold checkedDiv
      rw [if_neg hn]
    rw [h1, ih]
    rfl

/-- The deposit-day computation never divides by zero: when `n_contrib` is
zero the comprehension body never runs (the range is empty), and otherwise
the divisor is the non-zero `n_contrib`. -/
theorem deposit_daysE_ok (t : Timing) (T n : ℕ) :
    deposit_daysE t T n = .ok (deposit_days t T n) := by
  rcases Nat.eq_zero_or_pos n with rfl | hn
  · cases t <;> rfl
  · cases t
    · unfold deposit_daysE deposit_days
      rw [mapM_checkedDiv_ok n (by omega) (fun i => i * T)]
      simp [List.map_map, Function.comp_def]
    · unfold deposit_daysE deposit_days
      rw [mapM_checkedDiv_ok n (by omega) (fun i => (i + 1) * T)]
      rfl

/-- With a positive compounding interval the checked `future_value` loop
succeeds and computes the pure fold. -/
theorem fvAuxE_ok (c : Config) (pr : ℚ) (dd : Finset ℕ) (n ci : ℕ)
    (hci : ci ≠ 0) (L : List ℕ) (s : St) :
    fvAuxE c pr dd n ci L s = .ok (L.foldl (fvStep c pr dd n ci) s) := by
  induction L generalizing s with
  | nil => rfl
  | cons p ps ih =>
    rw [List.foldl_cons]
    unfold fvAuxE
    have h1 : checkedMod p ci = .ok (p % ci) := by
      unfold checkedMod
      rw [if_neg hci]
    rw [h1]
    exact ih _

/-- With a positive compounding interval the checked `breakdown` loop
succeeds and produces the pure rows. -/
theorem breakdownAuxE_ok (c : Config) (pr : ℚ) (dd : Finset ℕ) (n ci : ℕ)
    (hci : ci ≠ 0) (L : List ℕ) (s : St) :
    breakdownAuxE c pr dd n ci L s = .ok (breakdownAux c pr dd n ci L s) := by
  induction L generalizing s with
  | nil => rfl
  | cons p ps ih =>
    unfold breakdownAuxE breakdownAux
    have h1 : checkedMod p ci = .ok (p % ci) := by
      unfold checkedMod
      rw [if_neg hci]
    rw [h1]
    dsimp only
    rw [ih]
    rfl

/-- C6: for every validated configuration both period-index passes complete
without raising: every checked division and remainder — in particular the
deposit-day division by `n_contrib`, which is skipped entirely when
`n_contrib = 0` — succeeds, and the checked runs return exactly the pure
results. -/
theorem stepping_cannot_fail (c : Config) (pr : ℚ) (h : Valid c) :
    future_valueE c pr = .ok (future_value c pr) ∧
    breakdownE c pr = .ok (breakdown c pr) := by
  have hcp : c.compound_periods ≠ 0 := by
    have := FREQ_MAP_pos c.comp_freq
    unfold Config.compound_periods
    omega
  have hci : c.compound_interval ≠ 0 := by
    have := compound_interval_pos c
    omega
  have h1 : checkedDiv c.freq c.compound_periods = .ok c.compound_interval := by
    unfold checkedDiv
    rw [if_neg hcp]
    rfl
  constructor
  · unfold future_valueE future_value
    rw [h1, deposit_daysE_ok]
    show (do
      let s ← fvAuxE c pr (deposit_days c.contribution_timing
        c.total_periods c.n_contrib) c.n_contrib c.compound_interval
        c.periods ⟨c.init_value, 0⟩
      pure (round2 s.balance) : Except String ℚ) = _
    rw [fvAuxE_ok c pr _ _ _ hci]
    rfl
  · unfold breakdownE breakdown
    rw [h1, deposit_daysE_ok]
    show (breakdownAuxE c pr (deposit_days c.contribution_timing
      c.total_periods c.n_contrib) c.n_contrib c.compound_interval
      c.periods ⟨c.init_value, 0⟩ : Except String (List Rec)) = _
    rw [breakdownAuxE_ok c pr _ _ _ hci]

/-- C6, witness: the End-timing literal scenario is validated and its
checked passes return its pure results. -/
theorem stepping_cannot_fail_witness :
    Valid scenarioEnd ∧
    (future_valueE scenarioEnd (5/100) = .ok (future_value scenarioEnd (5/100)) ∧
     breakdownE scenarioEnd (5/100) = .ok (breakdown scenarioEnd (5/100))) :=
  ⟨by decide, stepping_cannot_fail scenarioEnd (5/100) (by decide)⟩

/-! ## C4: the total-contributions law -/

/-- Whatever the timing, the step increments the contribution count
exactly when the period is a deposit day and budget remains. -/
theorem breakdownStep_cnt (c : Config) (pr : ℚ) (dd : Finset ℕ)
    (n ci p : ℕ) (s : St) :
    (breakdownStep c pr dd n ci p s).1.contrib_count
      = if p ∈ dd ∧ s.contrib_count < n then s.contrib_count + 1
        else s.contrib_count := by
  unfold breakdownStep
  rcases hT : c.contribution_timing with _ | _ <;>
    by_cases h1 : p ∈ dd <;>
    by_cases h2 : s.contrib_count < n <;>
    simp [hT, h1, h2]

/-- Whatever the timing, the step records the configured contribution
exactly when the period is a deposit day and budget remains. -/
theorem breakdownStep_cv (c : Config) (pr : ℚ) (dd : Finset ℕ)
    (n ci p : ℕ) (s : St) :
    (breakdownStep c pr dd n ci p s).2.contribution_val
      = if p ∈ dd ∧ s.contrib_count < n then c.contribution else 0 := by
  unfold breakdownStep
  rcases hT : c.contribution_timing with _ | _ <;>
    by_cases h1 : p ∈ dd <;>
    by_cases h2 : s.contrib_count < n <;>
    simp [hT, h1, h2]

/-- The contribution fields of a run sum to the configured amount times
the number of deposit-day hits served within the remaining budget. -/
theorem breakdownRawAux_sum_cv (c : Config) (pr : ℚ) (dd : Finset ℕ)
    (n ci : ℕ) (L : List ℕ) :
    ∀ s : St,
      ((breakdownRawAux c pr dd n ci L s).map Rec.contribution_val).sum
        = c.contribution *
          ((min n (s.contrib_count + L.countP (· ∈ dd)) - s.contrib_count : ℕ) : ℚ) := by
  induction L with
  | nil =>
    intro s
    have : min n (s.contrib_count + ([] : List ℕ).countP (· ∈ dd))
        - s.contrib_count = 0 := by
      simp only [List.countP_nil, Nat.add_zero]
      omega
    simp [breakdownRawAux, this]
  | cons p ps ih =>
    intro s
    rw [breakdownRawAux]
    rw [List.map_cons, List.sum_cons, ih, breakdownStep_cv,
      breakdownStep_cnt, List.countP_cons]
    by_cases h1 : p ∈ dd <;> by_cases h2 : s.contrib_count < n
    · rw [if_pos ⟨h1, h2⟩, if_pos ⟨h1, h2⟩]
      have hk : (1 : ℚ) + ((min n (s.contrib_count + 1 + ps.countP (· ∈ dd))
          - (s.contrib_count + 1) : ℕ) : ℚ)
          = ((min n (s.contrib_count +
              (ps.countP (· ∈ dd) + if (p ∈ dd : Bool) then 1 else 0))
            - s.contrib_count : ℕ) : ℚ) := by
        have hb : ((p ∈ dd : Bool) : Prop) := by simpa using h1
        rw [if_pos hb]
        have : 1 + (min n (s.contrib_count + 1 + ps.countP (· ∈ dd))
            - (s.contrib_count + 1))
            = min n (s.contrib_count + (ps.countP (· ∈ dd) + 1))
              - s.contrib_count := by omega
        exact_mod_cast congrArg (fun k : ℕ => (k : ℚ)) this
      calc c.contribution + c.contribution *
            ((min n (s.contrib_count + 1 + ps.countP (· ∈ dd))
              - (s.contrib_count + 1) : ℕ) : ℚ)
          = c.contribution * ((1 : ℚ) +
            ((min n (s.contrib_count + 1 + ps.countP (· ∈ dd))
              - (s.contrib_count + 1) : ℕ) : ℚ)) := by ring
        _ = _ := by rw [hk]
    · rw [if_neg (by tauto), if_neg (by tauto)]
      have hb : ((p ∈ dd : Bool) : Prop) := by simpa using h1
      rw [if_pos hb]
      have : min n (s.contrib_count + ps.countP (· ∈ dd)) - s.contrib_count
          = min n (s.contrib_count + (ps.countP (· ∈ dd) + 1))
            - s.contrib_count := by omega
      rw [zero_add, this]
    · rw [if_neg (by tauto), if_neg (by tauto)]
      have hb : ¬ ((p ∈ dd : Bool) : Prop) := by simpa using h1
      rw [if_neg hb]
      rw [zero_add, Nat.add_zero]
    · rw [if_neg (by tauto), if_neg (by tauto)]
      have hb : ¬ ((p ∈ dd : Bool) : Prop) := by simpa using h1
      rw [if_neg hb]
      rw [zero_add, Nat.add_zero]

/-- When `n ≤ T`, every deposit day lies in the walked range `1..T`. -/
theorem deposit_days_bounds (t : Timing) (T n : ℕ) (hT : n ≤ T)
    (x : ℕ) (hx : x ∈ deposit_days t T n) : 1 ≤ x ∧ x ≤ T := by
  have hn : 0 < n := by
    rcases Nat.eq_zero_or_pos n with rfl | h
    · cases t <;> simp [deposit_days] at hx
    · exact h
  cases t <;> simp only [deposit_days, List.mem_toFinset, List.mem_map,
    List.mem_range] at hx <;> obtain ⟨i, hi, rfl⟩ := hx
  · constructor
    · exact Nat.le_add_left 1 _
    · have hT0 : 0 < T := lt_of_lt_of_le hn hT
      have h1 : i * T / n ≤ (n - 1) * T / n :=
        Nat.div_le_div_right (Nat.mul_le_mul_right T (by omega))
      have h2 : (n - 1) * T / n < T := by
        rw [Nat.div_lt_iff_lt_mul hn]
        calc (n - 1) * T < n * T := by
              exact (Nat.mul_lt_mul_right hT0).mpr (by omega)
          _ = T * n := Nat.mul_comm n T
      exact Nat.succ_le_of_lt (lt_of_le_of_lt h1 h2)
  · constructor
    · rw [Nat.one_le_div_iff hn]
      calc n ≤ T := hT
        _ ≤ (i + 1) * T := Nat.le_mul_of_pos_left T (by omega)
    · have h1 : (i + 1) * T ≤ n * T := by
        apply Nat.mul_le_mul_right
        omega
      have h2 : (i + 1) * T / n ≤ n * T / n := Nat.div_le_div_right h1
      rw [Nat.mul_div_cancel_left _ hn] at h2
      exact h2

/-- When `n ≤ T`, the deposit-day indices are pairwise distinct:
consecutive quotients grow by at least one because the numerator grows by
`T ≥ n`. -/
theorem deposit_days_card (t : Timing) (T n : ℕ) (hT : n ≤ T) :
    (deposit_days t T n).card = n := by
  rcases Nat.eq_zero_or_pos n with rfl | hn
  · cases t <;> simp [deposit_days]
  have key : ∀ i j, i < j → j < n → (i + 1) * T / n < (j + 1) * T / n := by
    intro i j hij hj
    have h1 : (i + 1) * T + n ≤ (j + 1) * T := by
      have : (i + 1) * T + T ≤ (j + 1) * T := by
        have : (i + 2) * T ≤ (j + 1) * T := by
          apply Nat.mul_le_mul_right
          omega
        calc (i + 1) * T + T = (i + 2) * T := by ring
          _ ≤ (j + 1) * T := this
      omega
    calc (i + 1) * T / n < (i + 1) * T / n + 1 := Nat.lt_succ_self _
      _ = ((i + 1) * T + n) / n := (Nat.add_div_right _ hn).symm
      _ ≤ (j + 1) * T / n := Nat.div_le_div_right h1
  have key' : ∀ i j, i < j → j < n → i * T / n + 1 < j * T / n + 1 := by
    intro i j hij hj
    rcases Nat.eq_zero_or_pos i with rfl | hi
    · simp only [Nat.zero_mul, Nat.zero_div]
      have : n ≤ j * T := by
        calc n ≤ T := hT
          _ ≤ j * T := Nat.le_mul_of_pos_left T (by omega)
      have := (Nat.one_le_div_iff hn).mpr this
      omega
    · have := key (i - 1) (j - 1) (by omega) (by omega)
      have hi1 : i - 1 + 1 = i := by omega
      have hj1 : j - 1 + 1 = j := by omega
      rw [hi1, hj1] at this
      omega
  cases t <;>
    rw [deposit_days, List.toFinset_card_of_nodup, List.length_map,
      List.length_range]
  · refine List.Nodup.map_on ?_ (List.nodup_range n)
    intro i hi j hj hfij
    simp only [List.mem_range] at hi hj
    rcases lt_trichotomy i j with h | h | h
    · exact absurd hfij (Nat.ne_of_lt (key' i j h hj))
    · exact h
    · exact absurd hfij.symm (Nat.ne_of_lt (key' j i h hi))
  · refine List.Nodup.map_on ?_ (List.nodup_range n)
    intro i hi j hj hfij
    simp only [List.mem_range] at hi hj
    rcases lt_trichotomy i j with h | h | h
    · exact absurd hfij (Nat.ne_of_lt (key i j h hj))
    · exact h
    · exact absurd hfij.symm (Nat.ne_of_lt (key j i h hi))

/-- The walked period list `1..total_periods` is duplicate-free. -/
theorem periods_nodup (c : Config) : c.periods.Nodup :=
  (List.nodup_range c.total_periods).map (fun a b h => by omega)

/-- Membership in the period list. -/
theorem mem_periods (c : Config) (x : ℕ) :
    x ∈ c.periods ↔ 1 ≤ x ∧ x ≤ c.total_periods := by
  unfold Config.periods
  simp only [List.mem_map, List.mem_range]
  constructor
  · rintro ⟨i, hi, rfl⟩
    omega
  · rintro ⟨h1, h2⟩
    exact ⟨x - 1, by omega, by omega⟩

/-- When `n_contrib ≤ total_periods`, the period walk meets every deposit
day, so at least `n_contrib` periods test positive. -/
theorem periods_countP_deposit (c : Config)
    (hT : c.n_contrib ≤ c.total_periods) :
    c.n_contrib ≤ c.periods.countP
      (fun x => x ∈ deposit_days c.contribution_timing c.total_periods
        c.n_contrib) := by
  set dd := deposit_days c.contribution_timing c.total_periods c.n_contrib
    with hdd
  have hsub : dd ⊆ c.periods.toFinset := by
    intro x hx
    rw [List.mem_toFinset, mem_periods]
    exact deposit_days_bounds _ _ _ hT x hx
  have hcard : dd.card = c.n_contrib := deposit_days_card _ _ _ hT
  rw [List.countP_eq_length_filter]
  have hnodup : (c.periods.filter (fun x => x ∈ dd)).Nodup :=
    (periods_nodup c).filter _
  have hlen : (c.periods.filter (fun x => x ∈ dd)).length
      = (c.periods.filter (fun x => x ∈ dd)).toFinset.card :=
    (List.toFinset_card_of_nodup hnodup).symm
  rw [hlen, List.toFinset_filter]
  calc c.n_contrib = dd.card := hcard.symm
    _ ≤ (c.periods.toFinset.filter (fun x => (x ∈ dd : Bool))).card := by
        apply Finset.card_le_card
        intro x hx
        rw [Finset.mem_filter]
        exact ⟨hsub hx, by simpa using hx⟩

/-- With non-negative duration the contribution grid is no finer than the
stepping grid: `n_contrib ≤ total_periods`. -/
theorem n_contrib_le_total_periods (c : Config) (hy : 0 ≤ c.years) :
    c.n_contrib ≤ c.total_periods := by
  unfold Config.n_contrib Config.total_periods
  have h1 : c.years * (c.contrib_periods : ℚ) ≤ c.years * (c.freq : ℚ) := by
    apply mul_le_mul_of_nonneg_left _ hy
    exact_mod_cast Nat.le_max_right c.compound_periods c.contrib_periods
  have h2 := Int.floor_mono h1
  omega

/-- The unrounded contribution fields of a full run sum to
`contribution * n_contrib`: the deposit days are `n_contrib` distinct
periods of the walked range, each is served once, and the budget is never
exhausted early. -/
theorem breakdownRaw_sum_cv (c : Config) (pr : ℚ) (hy : 0 ≤ c.years) :
    ((breakdownRaw c pr).map Rec.contribution_val).sum
      = c.contribution * (c.n_contrib : ℚ) := by
  unfold breakdownRaw
  rw [breakdownRawAux_sum_cv]
  have hT := n_contrib_le_total_periods c hy
  have hcount := periods_countP_deposit c hT
  have : min c.n_contrib
      ((⟨c.init_value, 0⟩ : St).contrib_count + c.periods.countP
        (fun x => x ∈ deposit_days c.contribution_timing c.total_periods
          c.n_contrib))
      - (⟨c.init_value, 0⟩ : St).contrib_count = c.n_contrib := by
    show min c.n_contrib (0 + _) - 0 = c.n_contrib
    omega
  rw [this]

/-- C4, counterexample to the claim as stated: `cfgTiny` is validated, its
single annual contribution of `0.001` divides evenly into the grid, yet
`total_contributions()` returns `round(0.001 * 1 * 1, 2) = 0.0`, not the
product `0.001`. -/
theorem total_contributions_claim_cex :
    Valid cfgTiny ∧
    cfgTiny.years * (cfgTiny.contrib_periods : ℚ) = (cfgTiny.n_contrib : ℚ) ∧
    total_contributions cfgTiny
      ≠ cfgTiny.contribution * cfgTiny.years * (cfgTiny.contrib_periods : ℚ) := by
  refine ⟨by decide, by decide, by decide⟩

/-- C4 (amended): when the contribution events divide evenly into the
period grid (`duration_years * contribution_occurrences_per_year` is the
integer `n_contrib`), the sum of the unrounded contribution fields over the
produced records equals `contribution_amount * duration_years *
contribution_occurrences_per_year`, and the aggregated
`total_contributions()` is that product rounded to two decimals (the fast
path), rather than the product itself. -/
theorem total_contributions_law (c : Config) (pr : ℚ) (hv : Valid c)
    (he : c.years * (c.contrib_periods : ℚ) = (c.n_contrib : ℚ)) :
    ((breakdownRaw c pr).map Rec.contribution_val).sum
      = c.contribution * c.years * (c.contrib_periods : ℚ) ∧
    total_contributions c
      = round2 (((breakdownRaw c pr).map Rec.contribution_val).sum) := by
  have hy : 0 ≤ c.years := le_of_lt hv.2.2.2.1
  have hs := breakdownRaw_sum_cv c pr hy
  constructor
  · rw [hs, mul_assoc, he]
  · unfold total_contributions
    rw [hs, mul_assoc, he]

/-- C4, witness: the End-timing literal scenario divides evenly (five
annual contributions on a five-period grid); its raw contribution fields
sum to `100 * 5 * 1 = 500` and `total_contributions()` rounds that sum. -/
theorem total_contributions_law_witness :
    (Valid scenarioEnd ∧
      scenarioEnd.years * (scenarioEnd.contrib_periods : ℚ)
        = (scenarioEnd.n_contrib : ℚ)) ∧
    (((breakdownRaw scenarioEnd (5/100)).map Rec.contribution_val).sum
      = scenarioEnd.contribution * scenarioEnd.years *
        (scenarioEnd.contrib_periods : ℚ) ∧
    total_contributions scenarioEnd
      = round2 (((breakdownRaw scenarioEnd (5/100)).map
          Rec.contribution_val).sum)) :=
  ⟨⟨by decide, by decide⟩,
    total_contributions_law scenarioEnd (5/100) (by decide) (by decide)⟩

/-! ## C10: string normalization in the period-index constructor -/

/-- A string whose normalization is a recognized frequency tag normalizes
idempotently: the seven tags are already stripped and lowercase. -/
theorem pyNormalize_key {s : String} (h : pyNormalize s ∈ freqKeys) :
    pyNormalize (pyNormalize s) = pyNormalize s := by
  simp only [freqKeys, List.mem_cons, List.not_mem_nil, or_false] at h
  rcases h with h | h | h | h | h | h | h <;> rw [h] <;> decide

/-- C10: any `comp_freq`, `contribution_freq` and `contribution_timing`
strings that differ from recognized tags only by letter case or
surrounding whitespace are accepted, and the constructor stores their
stripped, lowercased forms; a `None` (or empty) `contribution_freq`
defaults to the already-normalized compounding frequency. -/
theorem string_normalization (cf t : String) (octf : Option String)
    (h1 : pyNormalize cf ∈ freqKeys)
    (h2 : ∀ s, octf = some s → s ≠ "" → pyNormalize s ∈ freqKeys)
    (h3 : pyNormalize t ∈ (["start", "end"] : List String)) :
    validateStrings cf octf t = .ok (pyNormalize cf,
      octf.elim (pyNormalize cf)
        (fun s => if s = "" then pyNormalize cf else pyNormalize s),
      pyNormalize t) := by
  unfold validateStrings
  rw [if_neg (not_not_intro h1)]
  rcases octf with _ | s
  · simp only [Option.elim]
    rw [if_neg (not_not_intro ((pyNormalize_key h1).symm ▸ h1)),
      if_neg (not_not_intro h3), pyNormalize_key h1]
  · simp only [Option.elim]
    by_cases hs : s = ""
    · rw [if_pos hs, if_pos hs,
        if_neg (not_not_intro ((pyNormalize_key h1).symm ▸ h1)),
        if_neg (not_not_intro h3), pyNormalize_key h1]
    · rw [if_neg hs, if_neg hs,
        if_neg (not_not_intro (h2 s rfl hs)), if_neg (not_not_intro h3)]

/-- C10, witness: `"  Annually"`, `" MONTHLY "` and `" End"` are accepted
and stored as `"annually"`, `"monthly"` and `"end"`. -/
theorem string_normalization_witness :
    (pyNormalize "  Annually" ∈ freqKeys ∧
      (∀ s, (some " MONTHLY " : Option String) = some s → s ≠ "" →
        pyNormalize s ∈ freqKeys) ∧
      pyNormalize " End" ∈ (["start", "end"] : List String)) ∧
    validateStrings "  Annually" (some " MONTHLY ") " End"
      = .ok (pyNormalize "  Annually",
          (some " MONTHLY " : Option String).elim (pyNormalize "  Annually")
            (fun s => if s = "" then pyNormalize "  Annually"
              else pyNormalize s),
          pyNormalize " End") :=
  ⟨⟨by decide, by (intro s hs hne; cases hs; decide), by decide⟩,
    string_normalization "  Annually" " End" (some " MONTHLY ")
      (by decide) (by (intro s hs hne; cases hs; decide)) (by decide)⟩

end Pycic
